import Mathlib

namespace CommandHandler

/-! ### Definitions: the embedded data model and operations -/

/-- Text as a list of characters, standing for a JavaScript string. -/
abbrev Str := List Char

/-- Model of the JavaScript whitespace class `\s` (also the set trimmed by
`String.prototype.trim`), restricted to the code points the model can name. -/
def isJsWhitespace (c : Char) : Bool :=
  c = ' ' || c = '\t' || c = '\n' || c = '\r' || c = '\x0b' || c = '\x0c' ||
  c = '\u00A0' || c = '\u1680' ||
  (0x2000 ≤ c.toNat && c.toNat ≤ 0x200A) ||
  c = '\u2028' || c = '\u2029' || c = '\u202F' || c = '\u205F' ||
  c = '\u3000' || c = '\uFEFF'

/-- Model of `String.prototype.toLowerCase` (ASCII scope). -/
def jsToLower (s : Str) : Str := s.map Char.toLower

/-- Model of `String.prototype.trim`: strip leading and trailing whitespace. -/
def jsTrim (s : Str) : Str :=
  ((s.dropWhile isJsWhitespace).reverse.dropWhile isJsWhitespace).reverse

/-- Worker for `jsSplitSpaces`: `acc` is the current chunk (reversed) and the
flag says whether we are inside a separator run (whose chunk was already
emitted). -/
def jsSplitSpacesGo : Bool → Str → Str → List Str
  | _, acc, [] => [acc.reverse]
  | inSep, acc, c :: rest =>
    if c = ' ' then
      if inSep then
        jsSplitSpacesGo true [] rest
      else
        acc.reverse :: jsSplitSpacesGo true [] rest
    else
      jsSplitSpacesGo false (c :: acc) rest

/-- Model of `s.split(/ +/)`: split on maximal runs of the space character
(U+0020 only — not the full whitespace class). -/
def jsSplitSpaces (s : Str) : List Str := jsSplitSpacesGo false [] s

/-- Worker for `jsSetDedup`; `seen` holds elements already emitted. -/
def jsSetDedupGo [BEq α] (seen : List α) : List α → List α
  | [] => []
  | x :: xs =>
    if seen.contains x then jsSetDedupGo seen xs
    else x :: jsSetDedupGo (x :: seen) xs

/-- Model of `[...new Set(list)]`: duplicates collapsed, order of first
occurrence preserved. -/
def jsSetDedup [BEq α] (l : List α) : List α := jsSetDedupGo [] l

/-- The `ownerId` setting: a string id, or `true` (anyone), or `false` (no
one).  The union type `string | boolean` is modelled as a tagged variant. -/
inductive OwnerId where
  | anyone
  | noOne
  | ofId (s : String)
deriving DecidableEq

/-- Result of the moderator-role resolver: an array of role ids, or `true`
meaning every role counts as a moderator role. -/
inductive ModRoles where
  | all
  | roleList (l : List String)
deriving DecidableEq

/-- The facts the engine reads from a resolved `GuildMember`. -/
structure GuildMember where
  isAdmin : Bool
  roleIds : List String
deriving DecidableEq

/-- The facts the engine reads from a `discord.js` `Message`.
`member = none` models an unresolved member object (`message.member` being
`null`); `fetchableMember` is what `message.guild.members.fetch` would
resolve it to. -/
structure Message where
  content : Str
  authorId : String
  authorIsBot : Bool
  guild : Option String
  member : Option GuildMember
  fetchableMember : GuildMember
  clientUserId : String
deriving DecidableEq

/-- A registered command (the `Command` interface).  Optional boolean flags
are `Option Bool` (`none` = absent); `runId` stands in for the identity of the
`run` action, which the model records rather than executes. -/
structure Command where
  command : Str
  aliases : List Str
  disabled : Option Bool := none
  description : Option Str := none
  usage : Option Str := none
  ownerOnly : Option Bool := none
  adminOnly : Option Bool := none
  modOnly : Option Bool := none
  inGuilds : Option Bool := none
  inDms : Option Bool := none
  allowBots : Option Bool := none
  botsOnly : Option Bool := none
  allowSelf : Option Bool := none
  runId : Nat := 0
deriving DecidableEq

/-- A command with all defaults filled in (the `FullCommand` interface). -/
structure FullCommand where
  disabled : Bool
  command : Str
  aliases : List Str
  description : Str
  usage : Str
  ownerOnly : Bool
  adminOnly : Bool
  modOnly : Bool
  inGuilds : Bool
  inDms : Bool
  allowBots : Bool
  botsOnly : Bool
  allowSelf : Bool
  runId : Nat
deriving DecidableEq

/-- Model of `defaultCommandValues`: fill in the documented defaults. -/
def defaultCommandValues (c : Command) : FullCommand where
  disabled := c.disabled.getD false
  command := c.command
  aliases := c.aliases
  description := c.description.getD []
  usage := c.usage.getD []
  ownerOnly := c.ownerOnly.getD false
  adminOnly := c.adminOnly.getD false
  modOnly := c.modOnly.getD false
  inGuilds := c.inGuilds.getD true
  inDms := c.inDms.getD true
  allowBots := c.allowBots.getD false
  botsOnly := c.botsOnly.getD false
  allowSelf := c.allowSelf.getD false
  runId := c.runId

/-- Outcome of a task test predicate: a boolean, or a raised error. -/
inductive TestOutcome where
  | ok (b : Bool)
  | err
deriving DecidableEq

/-- A registered task (the `Task` interface).  `test` models the asynchronous
test predicate; its `run` action is recorded as an event, not executed. -/
structure Task where
  name : String
  limited : Bool
  disabled : Option Bool := none
  ownerOnly : Option Bool := none
  adminOnly : Option Bool := none
  modOnly : Option Bool := none
  inGuilds : Option Bool := none
  inDms : Option Bool := none
  allowBots : Option Bool := none
  botsOnly : Option Bool := none
  allowSelf : Option Bool := none
  test : Message → TestOutcome

/-- A task with all defaults filled in (the `FullTask` interface). -/
structure FullTask where
  disabled : Bool
  name : String
  limited : Bool
  ownerOnly : Bool
  adminOnly : Bool
  modOnly : Bool
  inGuilds : Bool
  inDms : Bool
  allowBots : Bool
  botsOnly : Bool
  allowSelf : Bool

/-- Model of `defaultTaskValues`: fill in the documented defaults (the `test`
and `run` fields are carried separately by the model). -/
def defaultTaskValues (t : Task) : FullTask where
  disabled := t.disabled.getD false
  name := t.name
  limited := t.limited
  ownerOnly := t.ownerOnly.getD false
  adminOnly := t.adminOnly.getD false
  modOnly := t.modOnly.getD false
  inGuilds := t.inGuilds.getD true
  inDms := t.inDms.getD true
  allowBots := t.allowBots.getD false
  botsOnly := t.botsOnly.getD false
  allowSelf := t.allowSelf.getD false

/-- The `PermissionChecks` record: six sub-checks and their conjunction. -/
structure PermissionChecks where
  passChecks : Bool
  passAdminCheck : Bool
  passModCheck : Bool
  passBotCheck : Bool
  passChannelTypeCheck : Bool
  passOwnerCheck : Bool
  passSelfCheck : Bool
deriving DecidableEq

/-- The module-level `settings` object.  `guildPrefixes` is the `Map` as an
association list in insertion order; `getModRoles` is the resolver function. -/
structure Settings where
  ownerId : OwnerId
  globalPrefixes : List Str
  guildPrefixes : List (String × List Str)
  getModRoles : String → ModRoles

/-- The initial value of `settings`. -/
def defaultSettings : Settings where
  ownerId := .noOne
  globalPrefixes := [[]]
  guildPrefixes := []
  getModRoles := fun _ => ModRoles.roleList []

/-- Model of `Map.prototype.has` on the association-list model. -/
def mapHas (mp : List (String × α)) (k : String) : Bool :=
  (mp.lookup k).isSome

/-- Model of `Map.prototype.set`: replace in place, or append a new entry. -/
def mapSet (mp : List (String × α)) (k : String) (v : α) : List (String × α) :=
  if (mp.lookup k).isSome then
    mp.map (fun p => if p.1 == k then (k, v) else p)
  else
    mp ++ [(k, v)]

/-- Model of `Map.prototype.delete`: remove the entry for `k`. -/
def mapDelete (mp : List (String × α)) (k : String) : List (String × α) :=
  mp.filter (fun p => p.1 != k)

/-- The administrator-permission test on `message.member` (false when the
member object is absent; the call sites guarantee it is resolved whenever it
is read in a guild). -/
def memberIsAdmin (m : Message) : Bool :=
  match m.member with
  | some mem => mem.isAdmin
  | none => false

/-- Model of `message.member.roles.cache.some(e => modRoles.includes(e.id))`. -/
def memberHasModRole (m : Message) (roles : List String) : Bool :=
  match m.member with
  | some mem => mem.roleIds.any (fun r => roles.contains r)
  | none => false

/-- Model of `checkCommandPermissions`: the six sub-checks and their
conjunction for a command, mirroring src/src/index.ts lines 292-344. -/
def checkCommandPermissions (s : Settings) (commandObj : Command) (m : Message) :
    PermissionChecks :=
  let modRoles : ModRoles :=
    match m.guild with
    | some gid => s.getModRoles gid
    | none => ModRoles.roleList []
  let f := defaultCommandValues commandObj
  let passAdminCheck := !f.adminOnly || (m.guild.isSome && memberIsAdmin m)
  let passModCheck :=
    !f.modOnly ||
      (m.guild.isSome &&
        (memberIsAdmin m ||
          (match modRoles with
           | .all => true
           | .roleList rs => memberHasModRole m rs)))
  let passBotCheck :=
    if m.authorIsBot then
      f.allowBots || f.botsOnly || m.authorId == m.clientUserId
    else
      !f.botsOnly
  let passChannelTypeCheck := if m.guild.isSome then f.inGuilds else f.inDms
  let passOwnerCheck :=
    !f.ownerOnly ||
      (match s.ownerId with
       | .anyone => true
       | .noOne => false
       | .ofId oid => m.authorId == oid)
  let passSelfCheck := m.authorId != m.clientUserId || f.allowSelf
  { passChecks := passAdminCheck && passModCheck && passBotCheck &&
      passChannelTypeCheck && passOwnerCheck && passSelfCheck
    passAdminCheck := passAdminCheck
    passModCheck := passModCheck
    passBotCheck := passBotCheck
    passChannelTypeCheck := passChannelTypeCheck
    passOwnerCheck := passOwnerCheck
    passSelfCheck := passSelfCheck }

/-- The match result of `checkCommand` (`CommandMatch`): either no match, or a
match carrying the variation, the checks record and the command. -/
inductive CommandMatch where
  | noMatch
  | matched (command : Str) (checks : PermissionChecks) (commandObj : Command)
deriving DecidableEq

/-- The command the match result carries, if any. -/
def CommandMatch.cmdOf : CommandMatch → Option Command
  | .noMatch => none
  | .matched _ _ c => some c

/-- The `CommandContext` record passed to a command run action. -/
structure CommandContext where
  argsOffset : Nat
  args : Str
  argv : List Str
  command : Str
  prefixStr : Str
  commandObj : Command
deriving DecidableEq

/-- Everything one call to `checkCommand` produces: the returned
`CommandMatch`, the `run` invocation performed (if any) with its context, the
settings object after the call (the guild-prefix append mutates it in place),
and the message object after the call (the member fetch mutates it). -/
structure CheckCommandOutcome where
  result : CommandMatch
  ranCommand : Option (Command × CommandContext)
  settingsAfter : Settings
  messageAfter : Message

/-- An intermediate hit produced inside the `checkCommand` loops. -/
structure CommandHit where
  result : CommandMatch
  ranCommand : Option (Command × CommandContext)
  messageAfter : Message

/-- The boundary part of the per-candidate test of src/src/index.ts lines
246-249: the character immediately after the matched substring is whitespace
or the string ends (`/^\s|^$/` on the remainder). -/
def boundaryOk : Str → Bool
  | [] => true
  | c :: _ => isJsWhitespace c

/-- Whether `pv = prefix ++ variation` matches the (already lowercased)
content with the required boundary (src/src/index.ts lines 246-249). -/
def matchesVariation (contentLower pv : Str) : Bool :=
  pv.isPrefixOf contentLower && boundaryOk (contentLower.drop pv.length)

/-- Resolve the member object when the message is from a guild and the member
is not yet resolved (src/src/index.ts lines 250-252). -/
def resolveMember (m : Message) : Message :=
  if m.guild.isSome && m.member.isNone then
    { m with member := some m.fetchableMember }
  else
    m

/-- Body of the innermost `checkCommand` loop once a prefix+variation matched
(src/src/index.ts lines 250-277): resolve the member, evaluate the checks,
invoke `run` when they pass, and report the match. -/
def commandHitOf (s : Settings) (m : Message) (pfx : Str) (c : Command)
    (v : Str) : CommandHit :=
  let mAfter := resolveMember m
  let checks := checkCommandPermissions s c mAfter
  let ran :=
    if checks.passChecks then
      let argsOffset := v.length + pfx.length
      let args := jsTrim (m.content.drop argsOffset)
      some (c, { argsOffset := argsOffset
                 args := args
                 argv := if args.isEmpty then [] else jsSplitSpaces args
                 command := v
                 prefixStr := pfx
                 commandObj := c : CommandContext })
    else
      none
  { result := .matched v checks c, ranCommand := ran, messageAfter := mAfter }

/-- The innermost `checkCommand` loop: try each variation of one command. -/
def tryVariations (s : Settings) (m : Message) (pfx : Str) (c : Command) :
    List Str → Option CommandHit
  | [] => none
  | v :: vs =>
    if matchesVariation (jsToLower m.content) (pfx ++ v) then
      some (commandHitOf s m pfx c v)
    else
      tryVariations s m pfx c vs

/-- The middle `checkCommand` loop: try each registered command in registry
order, primary name first, then the aliases. -/
def tryCommands (s : Settings) (m : Message) (pfx : Str) :
    List Command → Option CommandHit
  | [] => none
  | c :: cs =>
    match tryVariations s m pfx c (c.command :: c.aliases) with
    | some hit => some hit
    | none => tryCommands s m pfx cs

/-- The outer `checkCommand` loop: try each prefix in order. -/
def tryPrefixes (s : Settings) (m : Message) :
    List Str → List Command → Option CommandHit
  | [], _ => none
  | p :: ps, cmds =>
    match tryCommands s m p cmds with
    | some hit => some hit
    | none => tryPrefixes s m ps cmds

/-- The prefix list `checkCommand` iterates over: `validPrefixes` starts as an
alias of `settings.globalPrefixes` and the guild prefixes are pushed onto it
in place when the message guild has an entry (src/src/index.ts lines
238-241). -/
def validPrefixes (s : Settings) (m : Message) : List Str :=
  s.globalPrefixes ++
    (match m.guild with
     | some gid =>
       if mapHas s.guildPrefixes gid then
         (s.guildPrefixes.lookup gid).getD []
       else
         []
     | none => [])

/-- Model of `checkCommand(message)`: search prefix x command x variation
combinations in order, run the first match command when its checks pass, and
report the outcome.  `settingsAfter` reflects the in-place growth of
`settings.globalPrefixes` caused by the guild-prefix push. -/
def checkCommand (s : Settings) (cmds : List Command) (m : Message) :
    CheckCommandOutcome :=
  let vp := validPrefixes s m
  let sAfter : Settings := { s with globalPrefixes := vp }
  match tryPrefixes s m vp cmds with
  | some hit =>
    { result := hit.result
      ranCommand := hit.ranCommand
      settingsAfter := sAfter
      messageAfter := hit.messageAfter }
  | none =>
    { result := .noMatch
      ranCommand := none
      settingsAfter := sAfter
      messageAfter := m }

/-- First matching `(command, variation)` pair inside the command list for one
prefix: the specification-level view of the scan order. -/
def findMatchInCommands (contentLower pfx : Str) :
    List Command → Option (Command × Str)
  | [] => none
  | c :: cs =>
    match (c.command :: c.aliases).find?
        (fun v => matchesVariation contentLower (pfx ++ v)) with
    | some v => some (c, v)
    | none => findMatchInCommands contentLower pfx cs

/-- First matching `(prefix, command, variation)` triple over the whole
prefix-major scan order of `checkCommand`. -/
def findMatch (contentLower : Str) :
    List Str → List Command → Option (Str × Command × Str)
  | [], _ => none
  | p :: ps, cmds =>
    match findMatchInCommands contentLower p cmds with
    | some cv => some (p, cv.1, cv.2)
    | none => findMatch contentLower ps cmds

/-- Model of `checkTaskPermissions`: identical checks to the command variant,
except that an unresolved member object in a guild raises instead of being
fetched (src/src/index.ts lines 398-451). -/
def checkTaskPermissions (s : Settings) (taskObj : Task) (m : Message) :
    Except String PermissionChecks :=
  if m.guild.isSome && m.member.isNone then
    .error "Should be unreachable"
  else
    let modRoles : ModRoles :=
      match m.guild with
      | some gid => s.getModRoles gid
      | none => ModRoles.roleList []
    let f := defaultTaskValues taskObj
    let passAdminCheck := !f.adminOnly || (m.guild.isSome && memberIsAdmin m)
    let passModCheck :=
      !f.modOnly ||
        (m.guild.isSome &&
          (memberIsAdmin m ||
            (match modRoles with
             | .all => true
             | .roleList rs => memberHasModRole m rs)))
    let passBotCheck :=
      if m.authorIsBot then
        f.allowBots || f.botsOnly || m.authorId == m.clientUserId
      else
        !f.botsOnly
    let passChannelTypeCheck := if m.guild.isSome then f.inGuilds else f.inDms
    let passOwnerCheck :=
      !f.ownerOnly ||
        (match s.ownerId with
         | .anyone => true
         | .noOne => false
         | .ofId oid => m.authorId == oid)
    let passSelfCheck := m.authorId != m.clientUserId || f.allowSelf
    .ok { passChecks := passAdminCheck && passModCheck && passBotCheck &&
            passChannelTypeCheck && passOwnerCheck && passSelfCheck
          passAdminCheck := passAdminCheck
          passModCheck := passModCheck
          passBotCheck := passBotCheck
          passChannelTypeCheck := passChannelTypeCheck
          passOwnerCheck := passOwnerCheck
          passSelfCheck := passSelfCheck }

/-- The `TaskContext` record: the partition built by the `checkTasks` pass. -/
structure TaskContext where
  matching : List Task
  notMatching : List Task

/-- The `test` call wrapped in try/catch: a raised error is treated as a
`false` result (src/src/index.ts lines 365-370). -/
def taskTestResult (t : Task) (m : Message) : Bool :=
  match t.test m with
  | .ok b => b
  | .err => false

/-- The partition loop of `checkTasks` (src/src/index.ts lines 364-381),
threading the `limitedSelected` flag.  An error raised by
`checkTaskPermissions` propagates out of the whole call. -/
def checkTasksLoop (s : Settings) (m : Message) (excludeLimited : Bool) :
    List Task → Bool → TaskContext → Except String TaskContext
  | [], _, ctx => .ok ctx
  | t :: rest, limitedSelected, ctx =>
    if taskTestResult t m then
      match checkTaskPermissions s t m with
      | .error e => .error e
      | .ok checks =>
        if checks.passChecks &&
            (!t.limited || (!limitedSelected && !excludeLimited)) then
          checkTasksLoop s m excludeLimited rest t.limited
            { ctx with matching := ctx.matching ++ [t] }
        else
          checkTasksLoop s m excludeLimited rest limitedSelected
            { ctx with notMatching := ctx.notMatching ++ [t] }
    else
      checkTasksLoop s m excludeLimited rest limitedSelected
        { ctx with notMatching := ctx.notMatching ++ [t] }

/-- The `TaskMatch` record returned by `checkTasks`. -/
structure TaskMatch where
  matched : Bool
  matching : List Task
  notMatching : List Task

/-- Everything one call to `checkTasks` produces: the returned record and the
`run` invocations performed (each matching task, in order, receives the full
partition as its context). -/
structure CheckTasksOutcome where
  result : TaskMatch
  runs : List Task

/-- Model of `checkTasks(message, excludeLimited)`: partition every registered
task into matching/notMatching, then run each matching task. -/
def checkTasks (s : Settings) (taskList : List Task) (m : Message)
    (excludeLimited : Bool) : Except String CheckTasksOutcome :=
  match checkTasksLoop s m excludeLimited taskList false ⟨[], []⟩ with
  | .error e => .error e
  | .ok ctx =>
    .ok { result := { matched := ctx.matching.length != 0
                      matching := ctx.matching
                      notMatching := ctx.notMatching }
          runs := ctx.matching }

/-- Names of a list of tasks, for stating results up to `run`/`test`
function identity. -/
def taskNames (l : List Task) : List String := l.map Task.name

/-- Observable view of a `checkTasks` result: the `match` flag and the names
in `matching`, `notMatching` and the run sequence. -/
def checkTasksView (r : Except String CheckTasksOutcome) :
    Except String (Bool × List String × List String × List String) :=
  r.map (fun o => (o.result.matched, taskNames o.result.matching,
    taskNames o.result.notMatching, taskNames o.runs))

/-- A JavaScript value expected to be a string: either a string, or something
of another type (triggering the `typeof !== string` validation). -/
inductive JsVal where
  | str (s : Str)
  | notStr
deriving DecidableEq

/-- A raw command definition as loaded from a command file, before
validation/normalization (the loader itself is the external collaborator). -/
structure RawCommand where
  command : JsVal
  aliases : Option (List JsVal) := none
  disabled : Option Bool := none
  description : Option Str := none
  usage : Option Str := none
  ownerOnly : Option Bool := none
  adminOnly : Option Bool := none
  modOnly : Option Bool := none
  inGuilds : Option Bool := none
  inDms : Option Bool := none
  allowBots : Option Bool := none
  botsOnly : Option Bool := none
  allowSelf : Option Bool := none
  runId : Nat := 0
deriving DecidableEq

/-- The command object as it is pushed onto the living list, after in-place
normalization of its name and aliases. -/
def rawToCommand (rc : RawCommand) (name : Str) (als : List Str) : Command where
  command := name
  aliases := als
  disabled := rc.disabled
  description := rc.description
  usage := rc.usage
  ownerOnly := rc.ownerOnly
  adminOnly := rc.adminOnly
  modOnly := rc.modOnly
  inGuilds := rc.inGuilds
  inDms := rc.inDms
  allowBots := rc.allowBots
  botsOnly := rc.botsOnly
  allowSelf := rc.allowSelf
  runId := rc.runId

/-- Loop state of `registerCommandsFolder`: the living command list, the
accumulated `commandStrings`, and the two counters. -/
structure CommandRegState where
  commands : List Command
  commandStrings : List Str
  registered : Nat
  disabled : Nat
deriving DecidableEq

/-- Initial loop state of one `registerCommandsFolder` call: note
`commandStrings` collects only the primary names of already-registered
commands (src/src/index.ts line 494). -/
def initCommandRegState (cs : List Command) : CommandRegState where
  commands := cs
  commandStrings := cs.map (fun e => e.command)
  registered := 0
  disabled := 0

/-- The duplicate check and push for one candidate (src/src/index.ts lines
519-528).  The source error message interpolates the colliding string; the
model uses a fixed message. -/
def registerCommandCommit (st : CommandRegState) (rc : RawCommand) (name : Str)
    (aliasStrs : List Str) : CommandRegState × Option String :=
  let variations := name :: aliasStrs
  if variations.any (fun v => st.commandStrings.contains v) then
    (st, some "Duplicate command")
  else
    ({ st with
        commands := st.commands ++ [rawToCommand rc name aliasStrs]
        commandStrings := st.commandStrings ++ variations
        registered := st.registered + 1 }, none)

/-- One iteration of the `registerCommandsFolder` loop (src/src/index.ts lines
497-529): validate, normalize, skip disabled, check duplicates, push. -/
def registerCommandStep (st : CommandRegState) (rc : RawCommand) :
    CommandRegState × Option String :=
  match rc.command with
  | .notStr => (st, some "Command must be a string")
  | .str raw =>
    let name := jsToLower (jsTrim raw)
    if name = [] || rc.disabled = some true then
      ({ st with disabled := st.disabled + 1 }, none)
    else
      match rc.aliases with
      | some als =>
        if als.any (fun a => match a with | .notStr => true | .str _ => false) then
          (st, some "Command aliases must be strings")
        else
          registerCommandCommit st rc name
            (als.map (fun a => match a with
              | .str x => jsToLower (jsTrim x)
              | .notStr => []))
      | none => registerCommandCommit st rc name []

/-- The `registerCommandsFolder` loop over the files of the batch.  An error
aborts the loop at once, keeping the state mutated so far. -/
def registerCommandsLoop : List RawCommand → CommandRegState →
    CommandRegState × Option String
  | [], st => (st, none)
  | rc :: rest, st =>
    match registerCommandStep st rc with
    | (stNext, none) => registerCommandsLoop rest stNext
    | (stNext, some e) => (stNext, some e)

/-- The `{registered, disabled}` counts returned on success. -/
structure RegistrationInfo where
  registered : Nat
  disabled : Nat
deriving DecidableEq

/-- Result of one `registerCommandsFolder` call: the living command list after
the call (mutated even when the call threw), and the thrown error or the
returned counts. -/
structure RegisterCommandsResult where
  commands : List Command
  outcome : Except String RegistrationInfo

/-- The re-sort after a successful batch: descending primary-name length,
stable (ES2019 `Array.prototype.sort`), ties keeping registration order. -/
def sortCommands (cs : List Command) : List Command :=
  cs.mergeSort (fun a b => decide (b.command.length ≤ a.command.length))

/-- Model of `registerCommandsFolder`: process the batch; on success re-sort
and return the counts, on error leave the list as the loop left it (no
rollback, no sort). -/
def registerCommands (cs : List Command) (batch : List RawCommand) :
    RegisterCommandsResult :=
  match registerCommandsLoop batch (initCommandRegState cs) with
  | (st, none) =>
    { commands := sortCommands st.commands
      outcome := .ok { registered := st.registered, disabled := st.disabled } }
  | (st, some e) => { commands := st.commands, outcome := .error e }

/-- Loop state of `registerTasksFolder`. -/
structure TaskRegState where
  tasks : List Task
  tasknames : List String
  registered : Nat
  disabled : Nat

/-- Initial loop state of one `registerTasksFolder` call. -/
def initTaskRegState (ts : List Task) : TaskRegState where
  tasks := ts
  tasknames := ts.map Task.name
  registered := 0
  disabled := 0

/-- One iteration of the `registerTasksFolder` loop (src/src/index.ts lines
563-576): skip disabled, check duplicate names, push. -/
def registerTaskStep (st : TaskRegState) (t : Task) :
    TaskRegState × Option String :=
  if t.disabled = some true then
    ({ st with disabled := st.disabled + 1 }, none)
  else if st.tasknames.contains t.name then
    (st, some "Duplicate task")
  else
    ({ st with
        tasks := st.tasks ++ [t]
        tasknames := st.tasknames ++ [t.name]
        registered := st.registered + 1 }, none)

/-- The `registerTasksFolder` loop over the files of the batch. -/
def registerTasksLoop : List Task → TaskRegState →
    TaskRegState × Option String
  | [], st => (st, none)
  | t :: rest, st =>
    match registerTaskStep st t with
    | (stNext, none) => registerTasksLoop rest stNext
    | (stNext, some e) => (stNext, some e)

/-- Result of one `registerTasksFolder` call. -/
structure RegisterTasksResult where
  tasks : List Task
  outcome : Except String RegistrationInfo

/-- The re-sort after a successful batch: ascending name order. -/
def sortTasks (ts : List Task) : List Task :=
  ts.mergeSort (fun a b => decide (a.name ≤ b.name))

/-- Model of `registerTasksFolder`: process the batch; on success re-sort and
return the counts, on error leave the list as the loop left it. -/
def registerTasks (ts : List Task) (batch : List Task) : RegisterTasksResult :=
  match registerTasksLoop batch (initTaskRegState ts) with
  | (st, none) =>
    { tasks := sortTasks st.tasks
      outcome := .ok { registered := st.registered, disabled := st.disabled } }
  | (st, some e) => { tasks := st.tasks, outcome := .error e }

/-- Model of `getGlobalPrefixes`: a copy of the global prefix list. -/
def getGlobalPrefixes (s : Settings) : List Str := s.globalPrefixes

/-- Model of `getGuildPrefixes`: a copy of the guild prefix list, or `[]`. -/
def getGuildPrefixes (s : Settings) (guildId : String) : List Str :=
  match s.guildPrefixes.lookup guildId with
  | some l => l
  | none => []

/-- Argument of the prefix setters: `null`/`undefined`, a single string, or an
array of strings (values of other types would throw; the typed model cannot
express them). -/
inductive PrefixesArg where
  | nullArg
  | single (s : Str)
  | listArg (l : List Str)
deriving DecidableEq

/-- Model of `setGlobalPrefixes` (src/src/index.ts lines 625-645): `null`
resets to the empty-string prefix, an empty list becomes the empty-string
prefix, then duplicates are collapsed via `new Set` and the result is stored
and returned. -/
def setGlobalPrefixes (s : Settings) (arg : PrefixesArg) :
    Settings × List Str :=
  match arg with
  | .nullArg => ({ s with globalPrefixes := [[]] }, [[]])
  | .single x =>
    let uniqueList := jsSetDedup [x]
    ({ s with globalPrefixes := uniqueList }, uniqueList)
  | .listArg l =>
    let prefixList := if l.length = 0 then [[]] else l
    let uniqueList := jsSetDedup prefixList
    ({ s with globalPrefixes := uniqueList }, uniqueList)

/-- Model of `setGuildPrefixes` (src/src/index.ts lines 653-669): `null` or an
empty list deletes the guild entry and returns `[]`; otherwise the
deduplicated list is stored and returned. -/
def setGuildPrefixes (s : Settings) (guildId : String) (arg : PrefixesArg) :
    Settings × List Str :=
  match arg with
  | .nullArg => ({ s with guildPrefixes := mapDelete s.guildPrefixes guildId }, [])
  | .single x =>
    let uniqueList := jsSetDedup [x]
    ({ s with guildPrefixes := mapSet s.guildPrefixes guildId uniqueList },
      uniqueList)
  | .listArg l =>
    if l.length = 0 then
      ({ s with guildPrefixes := mapDelete s.guildPrefixes guildId }, [])
    else
      let uniqueList := jsSetDedup l
      ({ s with guildPrefixes := mapSet s.guildPrefixes guildId uniqueList },
        uniqueList)

/-- A direct message `"!ban a<TAB>b"` from a plain user. -/
def exMsgDM : Message where
  content := "!ban a\tb".toList
  authorId := "u"
  authorIsBot := false
  guild := none
  member := none
  fetchableMember := { isAdmin := false, roleIds := [] }
  clientUserId := "bot"

/-- A plain `ban` command with no aliases and default flags. -/
def exBanCmd : Command := { command := "ban".toList, aliases := [] }

/-- Settings with the single global prefix `"!"`. -/
def exSettingsBang : Settings where
  ownerId := .noOne
  globalPrefixes := ["!".toList]
  guildPrefixes := []
  getModRoles := fun _ => ModRoles.roleList []

/-- The C4 claim reading of the per-candidate test: message text and
`prefix + variation` compared case-insensitively (both sides lowercased),
with the whitespace-or-end boundary after the matched substring. -/
def specMatchesCI (content pfx v : Str) : Bool :=
  (jsToLower (pfx ++ v)).isPrefixOf (jsToLower content) &&
    boundaryOk ((jsToLower content).drop (pfx ++ v).length)

/-- Settings whose single registered global prefix contains an uppercase
letter. -/
def c4settings : Settings :=
  { exSettingsBang with globalPrefixes := ["A".toList] }

/-- The direct message `"aban"`. -/
def c4msg : Message := { exMsgDM with content := "aban".toList }

/-- Worker for `splitWhitespaceRuns`, like `jsSplitSpacesGo` but splitting on
the full whitespace class. -/
def splitWhitespaceGo : Bool → Str → Str → List Str
  | _, acc, [] => [acc.reverse]
  | inSep, acc, c :: rest =>
    if isJsWhitespace c then
      if inSep then
        splitWhitespaceGo true [] rest
      else
        acc.reverse :: splitWhitespaceGo true [] rest
    else
      splitWhitespaceGo false (c :: acc) rest

/-- Split on maximal runs of whitespace characters. -/
def splitWhitespaceRuns (s : Str) : List Str := splitWhitespaceGo false [] s

/-- The C6 claim reading of `argv`: the args string split on runs of
whitespace, or empty when the args string is empty. -/
def specArgvWhitespace (args : Str) : List Str :=
  if args.isEmpty then [] else splitWhitespaceRuns args

/-- The `checkCommand` outcome for the C6 counterexample message
`"!ban a<TAB>b"`. -/
def c6outcome : CheckCommandOutcome := checkCommand exSettingsBang [exBanCmd] exMsgDM

/-- Settings with global prefix `"!"` and guild prefix `"?"` for guild
`"g"`. -/
def c8settings : Settings :=
  { exSettingsBang with guildPrefixes := [("g", ["?".toList])] }

/-- A message in guild `"g"` with a resolved member. -/
def c8msg : Message :=
  { exMsgDM with
      guild := some "g"
      member := some { isAdmin := false, roleIds := [] } }

/-- The first command file of the C2 batch: a valid command `"a"`. -/
def c2rawA : RawCommand := { command := .str "a".toList }

/-- The second command file of the C2 batch: its name is not a string. -/
def c2rawBad : RawCommand := { command := .notStr }

/-- The command-loop state after registering `"a"` from an empty registry. -/
def c2st1 : CommandRegState where
  commands := [{ command := "a".toList, aliases := [] }]
  commandStrings := ["a".toList]
  registered := 1
  disabled := 0

/-- A task named `"x"` used twice in the C2 witness batch. -/
def c2task : Task := { name := "x", limited := false, test := fun _ => .ok false }

/-- The task-loop state after registering `"x"` from an empty registry. -/
def c2tst1 : TaskRegState where
  tasks := [c2task]
  tasknames := ["x"]
  registered := 1
  disabled := 0

/-- Observable view of a loop state: the names in the two partitions. -/
def loopView (r : Except String TaskContext) :
    Except String (List String × List String) :=
  r.map (fun c => (taskNames c.matching, taskNames c.notMatching))

/-- Limited task `"a"`, sorted first; its test always passes. -/
def c1taskA : Task := { name := "a", limited := true, test := fun _ => .ok true }

/-- Non-limited task `"b"`, sorted between the two limited tasks. -/
def c1taskB : Task := { name := "b", limited := false, test := fun _ => .ok true }

/-- Limited task `"c"`, sorted last; its test always passes. -/
def c1taskC : Task := { name := "c", limited := true, test := fun _ => .ok true }

/-- The same task with its test replaced by one returning `false`. -/
def falseTask (t : Task) : Task := { t with test := fun _ => .ok false }

/-- A task whose test predicate raises on every message. -/
def c7task : Task := { name := "boom", limited := false, test := fun _ => .err }

/-- A task whose test is always true. -/
def c10task : Task := { name := "x", limited := false, test := fun _ => .ok true }

/-- A guild message with an unresolved member object. -/
def c10msg : Message := { exMsgDM with guild := some "g", member := none }

/-- Every name and alias of a command list, in scan order. -/
def allVariations : List Command → List Str
  | [] => []
  | c :: cs => (c.command :: c.aliases) ++ allVariations cs

/-- Command `B` of the C5 counterexample: primary name `"ban"`. -/
def c5cmdB : Command := { command := "ban".toList, aliases := [] }

/-- Command `A` of the C5 counterexample: primary name `"b"` (a literal
prefix of `"ban"`) with alias `"an"`. -/
def c5cmdA : Command := { command := "b".toList, aliases := ["an".toList] }

/-- Settings with the two global prefixes `"!b"` and `"!"`, in that order. -/
def c5settings : Settings :=
  { exSettingsBang with globalPrefixes := ["!b".toList, "!".toList] }

/-- The direct message `"!ban"`. -/
def c5msg : Message := { exMsgDM with content := "!ban".toList }

/-- Command `B` of the C5 witness: `"banlist"`. -/
def c5wCmdB : Command := { command := "banlist".toList, aliases := [] }

/-- Command `A` of the C5 witness: `"ban"`, a literal prefix of
`"banlist"`. -/
def c5wCmdA : Command := { command := "ban".toList, aliases := [] }

/-- Settings of the C5 witness: the single global prefix `"!"`. -/
def c5wSettings : Settings := exSettingsBang

/-- The direct message `"!banlist"`. -/
def c5wMsg : Message := { exMsgDM with content := "!banlist".toList }

/-! ### Theorems -/

theorem tryVariations_eq_find (s : Settings) (m : Message) (pfx : Str)
    (c : Command) (vs : List Str) :
    tryVariations s m pfx c vs =
      (vs.find? (fun v => matchesVariation (jsToLower m.content) (pfx ++ v))).map
        (commandHitOf s m pfx c) := by
  induction vs with
  | nil => rfl
  | cons v vs ih =>
    cases h : matchesVariation (jsToLower m.content) (pfx ++ v) with
    | true => simp [tryVariations, List.find?_cons, h]
    | false => simp [tryVariations, List.find?_cons, h, ih]

theorem tryCommands_eq_find (s : Settings) (m : Message) (pfx : Str)
    (cmds : List Command) :
    tryCommands s m pfx cmds =
      (findMatchInCommands (jsToLower m.content) pfx cmds).map
        (fun cv => commandHitOf s m pfx cv.1 cv.2) := by
  induction cmds with
  | nil => rfl
  | cons c cs ih =>
    rw [tryCommands, findMatchInCommands, tryVariations_eq_find]
    cases h : (c.command :: c.aliases).find?
        (fun v => matchesVariation (jsToLower m.content) (pfx ++ v)) with
    | none => simpa using ih
    | some v => rfl

theorem tryPrefixes_eq_find (s : Settings) (m : Message) (ps : List Str)
    (cmds : List Command) :
    tryPrefixes s m ps cmds =
      (findMatch (jsToLower m.content) ps cmds).map
        (fun pcv => commandHitOf s m pcv.1 pcv.2.1 pcv.2.2) := by
  induction ps with
  | nil => rfl
  | cons p ps ih =>
    rw [tryPrefixes, findMatch, tryCommands_eq_find]
    cases h : findMatchInCommands (jsToLower m.content) p cmds with
    | none => simpa using ih
    | some cv => rfl

theorem checkCommand_found (s : Settings) (cmds : List Command) (m : Message)
    (p : Str) (c : Command) (v : Str)
    (h : findMatch (jsToLower m.content) (validPrefixes s m) cmds =
      some (p, c, v)) :
    checkCommand s cmds m =
      { result := .matched v (checkCommandPermissions s c (resolveMember m)) c
        ranCommand :=
          if (checkCommandPermissions s c (resolveMember m)).passChecks then
            some (c, { argsOffset := v.length + p.length
                       args := jsTrim (m.content.drop (v.length + p.length))
                       argv :=
                         if (jsTrim (m.content.drop (v.length + p.length))).isEmpty then
                           []
                         else
                           jsSplitSpaces (jsTrim (m.content.drop (v.length + p.length)))
                       command := v
                       prefixStr := p
                       commandObj := c })
          else
            none
        settingsAfter := { s with globalPrefixes := validPrefixes s m }
        messageAfter := resolveMember m } := by
  rw [checkCommand, tryPrefixes_eq_find, h]
  rfl

theorem checkCommand_notFound (s : Settings) (cmds : List Command) (m : Message)
    (h : findMatch (jsToLower m.content) (validPrefixes s m) cmds = none) :
    checkCommand s cmds m =
      { result := .noMatch
        ranCommand := none
        settingsAfter := { s with globalPrefixes := validPrefixes s m }
        messageAfter := m } := by
  rw [checkCommand, tryPrefixes_eq_find, h]
  rfl

/-- C3: on the first matching prefix/variation combination, `checkCommand`
invokes the command run action iff the computed `passChecks` conjunction
is true, and in either case returns `match = true` with the matched
variation, the full `PermissionChecks` record and the command descriptor;
when nothing matches it returns `match = false` and nothing else. -/
theorem checkCommand_match_report (s : Settings) (cmds : List Command)
    (m : Message) :
    match findMatch (jsToLower m.content) (validPrefixes s m) cmds with
    | some (p, c, v) =>
      (checkCommand s cmds m).result =
          .matched v (checkCommandPermissions s c (resolveMember m)) c ∧
        ((checkCommand s cmds m).ranCommand.map Prod.fst =
          if (checkCommandPermissions s c (resolveMember m)).passChecks then
            some c
          else
            none)
    | none =>
      (checkCommand s cmds m).result = .noMatch ∧
        (checkCommand s cmds m).ranCommand = none := by
  cases h : findMatch (jsToLower m.content) (validPrefixes s m) cmds with
  | none =>
    rw [checkCommand_notFound s cmds m h]
    exact ⟨rfl, rfl⟩
  | some pcv =>
    obtain ⟨p, c, v⟩ := pcv
    rw [checkCommand_found s cmds m p c v h]
    refine ⟨rfl, ?_⟩
    cases hp : (checkCommandPermissions s c (resolveMember m)).passChecks <;>
      simp [hp]

/-- C4 counterexample: with registered prefix `"A"` and command `"ban"`, the
message `"aban"` satisfies the claim case-insensitive comparison (lowercased
`"Aban"` is a prefix of lowercased `"aban"`, at the end of the string), yet
`checkCommand` reports no match — only the message text is lowercased, the
prefix is compared literally. -/
theorem c4_counterexample :
    specMatchesCI ("aban".toList) ("A".toList) ("ban".toList) = true ∧
      (checkCommand c4settings [exBanCmd] c4msg).result = CommandMatch.noMatch :=
  ⟨rfl, rfl⟩

/-- C4 (amended): the engine lowercases only the message text and compares it
literally against `prefix ++ variation`; whenever the registered prefix and
variation are already lowercase (registration guarantees this for variations,
but not for prefixes), the candidate test coincides with the claim
case-insensitive comparison, including the whitespace-or-end boundary. -/
theorem c4_amended (content p v : Str)
    (hp : jsToLower p = p) (hv : jsToLower v = v) :
    matchesVariation (jsToLower content) (p ++ v) = specMatchesCI content p v := by
  unfold matchesVariation specMatchesCI
  rw [show jsToLower (p ++ v) = jsToLower p ++ jsToLower v from
    List.map_append Char.toLower p v, hp, hv]

/-- C4 witness: the amended equivalence evaluated at the lowercase prefix
`"!"`, variation `"ban"` and content `"!Ban x"`. -/
theorem c4_amended_witness :
    matchesVariation (jsToLower ("!Ban x".toList))
        ("!".toList ++ "ban".toList) =
      specMatchesCI ("!Ban x".toList) ("!".toList) ("ban".toList) :=
  c4_amended ("!Ban x".toList) ("!".toList) ("ban".toList) (by decide) (by decide)

/-- C6 counterexample: for the message `"!ban a<TAB>b"` the invoked context
has `argv = ["a<TAB>b"]` — the code splits `args` on runs of the space
character only (`/ +/`), so the interior tab does not separate arguments,
while the claim split on runs of whitespace would give `["a", "b"]`. -/
theorem c6_counterexample :
    (c6outcome.ranCommand.map (fun rc => rc.2.argv) = some ["a\tb".toList]) ∧
      specArgvWhitespace ("a\tb".toList) = ["a".toList, "b".toList] ∧
      c6outcome.ranCommand.map (fun rc => rc.2.argv) ≠
        some (specArgvWhitespace ("a\tb".toList)) :=
  ⟨rfl, rfl, by decide⟩

/-- C6 (amended): when `checkCommand` invokes a run action, the context
satisfies `argsOffset` = matched variation length + prefix length, `args` =
the raw message text from that offset with surrounding whitespace trimmed,
and `argv` = `args` split on runs of the space character (U+0020) — not on
general whitespace — or the empty array when `args` is empty. -/
theorem c6_amended (s : Settings) (cmds : List Command) (m : Message)
    (c : Command) (ctx : CommandContext)
    (h : (checkCommand s cmds m).ranCommand = some (c, ctx)) :
    ctx.argsOffset = ctx.command.length + ctx.prefixStr.length ∧
      ctx.args = jsTrim (m.content.drop ctx.argsOffset) ∧
      ctx.argv = (if ctx.args.isEmpty then [] else jsSplitSpaces ctx.args) := by
  cases hf : findMatch (jsToLower m.content) (validPrefixes s m) cmds with
  | none =>
    rw [checkCommand_notFound s cmds m hf] at h
    cases h
  | some pcv =>
    obtain ⟨p, c0, v⟩ := pcv
    rw [checkCommand_found s cmds m p c0 v hf] at h
    cases hp : (checkCommandPermissions s c0 (resolveMember m)).passChecks with
    | false => simp [hp] at h
    | true =>
      rw [hp, if_pos rfl] at h
      injection h with h2
      injection h2 with hc hctx
      subst hctx
      exact ⟨rfl, rfl, rfl⟩

/-- C6 witness: the amended statement evaluated on `"!ban a<TAB>b"`, whose
context is `argsOffset = 4`, `args = "a<TAB>b"`, `argv = ["a<TAB>b"]`. -/
theorem c6_amended_witness :
    ({ argsOffset := 4
       args := "a\tb".toList
       argv := ["a\tb".toList]
       command := "ban".toList
       prefixStr := "!".toList
       commandObj := exBanCmd : CommandContext }.argsOffset =
        ("ban".toList).length + ("!".toList).length) ∧
      ("a\tb".toList = jsTrim (exMsgDM.content.drop 4)) ∧
      ([("a\tb".toList)] =
        (if ("a\tb".toList).isEmpty then [] else jsSplitSpaces ("a\tb".toList))) :=
  c6_amended exSettingsBang [exBanCmd] exMsgDM exBanCmd
    { argsOffset := 4
      args := "a\tb".toList
      argv := ["a\tb".toList]
      command := "ban".toList
      prefixStr := "!".toList
      commandObj := exBanCmd } rfl

/-- C8: a `checkCommand` call on a message from a guild with configured guild
prefixes appends those prefixes to the shared global-prefix list in place,
and the growth persists: `getGlobalPrefixes` afterwards returns the old
global prefixes extended by the guild prefixes. -/
theorem checkCommand_grows_globalPrefixes (s : Settings) (cmds : List Command)
    (m : Message) (gid : String) (gp : List Str)
    (hg : m.guild = some gid) (hp : s.guildPrefixes.lookup gid = some gp) :
    getGlobalPrefixes (checkCommand s cmds m).settingsAfter =
      getGlobalPrefixes s ++ gp := by
  have hvp : validPrefixes s m = s.globalPrefixes ++ gp := by
    simp [validPrefixes, hg, mapHas, hp]
  cases hf : findMatch (jsToLower m.content) (validPrefixes s m) cmds with
  | none => rw [checkCommand_notFound s cmds m hf]; simpa [getGlobalPrefixes] using hvp
  | some pcv =>
    obtain ⟨p, c0, v⟩ := pcv
    rw [checkCommand_found s cmds m p c0 v hf]
    simpa [getGlobalPrefixes] using hvp

/-- C8 witness: after one `checkCommand` call on a guild message, the global
prefix list has grown from `["!"]` to `["!", "?"]`. -/
theorem checkCommand_grows_globalPrefixes_witness :
    getGlobalPrefixes (checkCommand c8settings [exBanCmd] c8msg).settingsAfter =
      getGlobalPrefixes c8settings ++ ["?".toList] :=
  checkCommand_grows_globalPrefixes c8settings [exBanCmd] c8msg "g"
    ["?".toList] rfl rfl

theorem lookup_mapDelete (mp : List (String × α)) (k : String) :
    (mapDelete mp k).lookup k = none := by
  induction mp with
  | nil => rfl
  | cons a rest ih =>
    obtain ⟨x, y⟩ := a
    by_cases h : x = k
    · subst h
      simpa [mapDelete, List.filter_cons] using ih
    · have h1 : (x != k) = true := by simp [bne_iff_ne, h]
      have h2 : (k == x) = false := beq_eq_false_iff_ne.mpr (Ne.symm h)
      simp only [mapDelete, List.filter_cons, h1, if_true, List.lookup, h2]
      simpa [mapDelete] using ih

/-- C9 counterexample: `setGlobalPrefixes` on the empty list does not
round-trip to the deduplicated input `[]`; the code pushes the empty-string
prefix, so `getGlobalPrefixes` afterwards returns a one-element list holding
the empty string. -/
theorem c9_counterexample :
    getGlobalPrefixes
        (setGlobalPrefixes defaultSettings (PrefixesArg.listArg [])).1 = [[]] ∧
      getGlobalPrefixes
        (setGlobalPrefixes defaultSettings (PrefixesArg.listArg [])).1 ≠
          ([] : List Str) :=
  ⟨rfl, by decide⟩

/-- C9 (amended): for every non-empty list of strings, `setGlobalPrefixes`
followed by `getGlobalPrefixes` returns the list with duplicates collapsed
and first-occurrence order preserved (for the empty list the code stores the
empty-string prefix instead); and for every guild id, `setGuildPrefixes`
with `[]` followed by `getGuildPrefixes` returns `[]` and removes the guild
entry from the map entirely. -/
theorem c9_amended :
    (∀ (s : Settings) (l : List Str), l ≠ [] →
      getGlobalPrefixes (setGlobalPrefixes s (.listArg l)).1 = jsSetDedup l) ∧
      (∀ (s : Settings) (g : String),
        getGuildPrefixes (setGuildPrefixes s g (.listArg [])).1 g = [] ∧
          ((setGuildPrefixes s g (.listArg [])).1.guildPrefixes.lookup g) =
            none) := by
  constructor
  · intro s l hl
    have hlen : ¬l.length = 0 := by
      simpa [List.length_eq_zero] using hl
    simp [setGlobalPrefixes, getGlobalPrefixes, hlen]
  · intro s g
    refine ⟨?_, ?_⟩
    · simp [setGuildPrefixes, getGuildPrefixes, lookup_mapDelete]
    · simp [setGuildPrefixes, lookup_mapDelete]

/-- C9 witness: the amended round-trip at the two prefixes `!` and `?` and a
guild id. -/
theorem c9_amended_witness :
    getGlobalPrefixes
        (setGlobalPrefixes defaultSettings
          (.listArg ["!".toList, "?".toList])).1 =
        jsSetDedup ["!".toList, "?".toList] ∧
      (getGuildPrefixes
          (setGuildPrefixes defaultSettings "g" (.listArg [])).1 "g" = [] ∧
        ((setGuildPrefixes defaultSettings "g"
            (.listArg [])).1.guildPrefixes.lookup "g") = none) :=
  ⟨c9_amended.1 defaultSettings ["!".toList, "?".toList] (by decide),
    c9_amended.2 defaultSettings "g"⟩

theorem registerCommandsLoop_append (xs ys : List RawCommand)
    (st : CommandRegState) :
    registerCommandsLoop (xs ++ ys) st =
      (match registerCommandsLoop xs st with
       | (st1, none) => registerCommandsLoop ys st1
       | (st1, some e) => (st1, some e)) := by
  induction xs generalizing st with
  | nil => simp [registerCommandsLoop]
  | cons rc rest ih =>
    simp only [List.cons_append, registerCommandsLoop]
    cases h : registerCommandStep st rc with
    | mk st2 err =>
      cases err with
      | none => simpa using ih st2
      | some e => simp

theorem registerCommandStep_cases (st : CommandRegState) (rc : RawCommand) :
    ((registerCommandStep st rc).1 = st ∨ (registerCommandStep st rc).2 = none) ∧
      ∃ l, (registerCommandStep st rc).1.commands = st.commands ++ l := by
  unfold registerCommandStep registerCommandCommit
  cases rc.command with
  | notStr => exact ⟨Or.inl rfl, ⟨[], by simp⟩⟩
  | str raw =>
    dsimp only
    split
    · exact ⟨Or.inr rfl, ⟨[], by simp⟩⟩
    · cases rc.aliases with
      | none =>
        dsimp only
        split
        · exact ⟨Or.inl rfl, ⟨[], by simp⟩⟩
        · exact ⟨Or.inr rfl, ⟨_, rfl⟩⟩
      | some als =>
        dsimp only
        split
        · exact ⟨Or.inl rfl, ⟨[], by simp⟩⟩
        · split
          · exact ⟨Or.inl rfl, ⟨[], by simp⟩⟩
          · exact ⟨Or.inr rfl, ⟨_, rfl⟩⟩

theorem registerCommandStep_error_fst (st : CommandRegState) (rc : RawCommand)
    (e : String) (h : (registerCommandStep st rc).2 = some e) :
    (registerCommandStep st rc).1 = st := by
  rcases (registerCommandStep_cases st rc).1 with hf | hn
  · exact hf
  · rw [hn] at h
    cases h

theorem registerCommandsLoop_commands (b : List RawCommand)
    (st : CommandRegState) :
    ∃ l, (registerCommandsLoop b st).1.commands = st.commands ++ l := by
  induction b generalizing st with
  | nil => exact ⟨[], by simp [registerCommandsLoop]⟩
  | cons rc rest ih =>
    simp only [registerCommandsLoop]
    cases h : registerCommandStep st rc with
    | mk st2 err =>
      obtain ⟨l1, hl1⟩ := (registerCommandStep_cases st rc).2
      rw [h] at hl1
      simp only at hl1
      cases err with
      | none =>
        obtain ⟨l2, hl2⟩ := ih st2
        exact ⟨l1 ++ l2, by rw [hl2, hl1, List.append_assoc]⟩
      | some e => exact ⟨l1, hl1⟩

theorem registerTasksLoop_append (xs ys : List Task) (st : TaskRegState) :
    registerTasksLoop (xs ++ ys) st =
      (match registerTasksLoop xs st with
       | (st1, none) => registerTasksLoop ys st1
       | (st1, some e) => (st1, some e)) := by
  induction xs generalizing st with
  | nil => simp [registerTasksLoop]
  | cons t rest ih =>
    simp only [List.cons_append, registerTasksLoop]
    cases h : registerTaskStep st t with
    | mk st2 err =>
      cases err with
      | none => simpa using ih st2
      | some e => simp

theorem registerTaskStep_cases (st : TaskRegState) (t : Task) :
    ((registerTaskStep st t).1 = st ∨ (registerTaskStep st t).2 = none) ∧
      ∃ l, (registerTaskStep st t).1.tasks = st.tasks ++ l := by
  unfold registerTaskStep
  split
  · exact ⟨Or.inr rfl, ⟨[], by simp⟩⟩
  · split
    · exact ⟨Or.inl rfl, ⟨[], by simp⟩⟩
    · exact ⟨Or.inr rfl, ⟨_, rfl⟩⟩

theorem registerTaskStep_error_fst (st : TaskRegState) (t : Task)
    (e : String) (h : (registerTaskStep st t).2 = some e) :
    (registerTaskStep st t).1 = st := by
  rcases (registerTaskStep_cases st t).1 with hf | hn
  · exact hf
  · rw [hn] at h
    cases h

theorem registerTasksLoop_tasks (b : List Task) (st : TaskRegState) :
    ∃ l, (registerTasksLoop b st).1.tasks = st.tasks ++ l := by
  induction b generalizing st with
  | nil => exact ⟨[], by simp [registerTasksLoop]⟩
  | cons t rest ih =>
    simp only [registerTasksLoop]
    cases h : registerTaskStep st t with
    | mk st2 err =>
      obtain ⟨l1, hl1⟩ := (registerTaskStep_cases st t).2
      rw [h] at hl1
      simp only at hl1
      cases err with
      | none =>
        obtain ⟨l2, hl2⟩ := ih st2
        exact ⟨l1 ++ l2, by rw [hl2, hl1, List.append_assoc]⟩
      | some e => exact ⟨l1, hl1⟩

/-- C2 counterexample: registering the batch `[valid "a", non-string name]`
raises the validation error, yet the living command list is left holding the
earlier valid entry `"a"` — it is not "exactly as it was before the call". -/
theorem c2_counterexample :
    (registerCommands [] [c2rawA, c2rawBad]).outcome =
        .error "Command must be a string" ∧
      (registerCommands [] [c2rawA, c2rawBad]).commands =
        [{ command := "a".toList, aliases := [] }] ∧
      (registerCommands [] [c2rawA, c2rawBad]).commands ≠ [] :=
  ⟨rfl, rfl, by decide⟩

/-- C2 (amended): when a definition in a batch fails validation, the
registration call raises that error, but only the failing definition and the
ones after it are withheld: candidates processed earlier in the same batch
(and in particular all previously registered entries) remain on the living
list, which is left exactly as the loop had built it up to the failure (and
the final re-sort is skipped). -/
theorem c2_amended
    (cs : List Command) (b1 : List RawCommand) (bad : RawCommand)
    (rest : List RawCommand) (st1 : CommandRegState) (e : String)
    (h1 : registerCommandsLoop b1 (initCommandRegState cs) = (st1, none))
    (h2 : (registerCommandStep st1 bad).2 = some e)
    (ts : List Task) (tb1 : List Task) (tbad : Task) (trest : List Task)
    (tst1 : TaskRegState) (te : String)
    (h3 : registerTasksLoop tb1 (initTaskRegState ts) = (tst1, none))
    (h4 : (registerTaskStep tst1 tbad).2 = some te) :
    ((registerCommands cs (b1 ++ bad :: rest)).outcome = .error e ∧
      (registerCommands cs (b1 ++ bad :: rest)).commands = st1.commands ∧
      ∃ added, st1.commands = cs ++ added) ∧
      ((registerTasks ts (tb1 ++ tbad :: trest)).outcome = .error te ∧
        (registerTasks ts (tb1 ++ tbad :: trest)).tasks = tst1.tasks ∧
        ∃ tadded, tst1.tasks = ts ++ tadded) := by
  constructor
  · have hloop : registerCommandsLoop (b1 ++ bad :: rest)
        (initCommandRegState cs) = (st1, some e) := by
      rw [registerCommandsLoop_append, h1]
      simp only [registerCommandsLoop]
      cases hstep : registerCommandStep st1 bad with
      | mk stx ex =>
        have hex : ex = some e := by rw [hstep] at h2; exact h2
        have hfst : stx = st1 := by
          have := registerCommandStep_error_fst st1 bad e h2
          rw [hstep] at this
          exact this
        subst hex hfst
        simp
    have hadded : ∃ added, st1.commands = cs ++ added := by
      obtain ⟨l, hl⟩ := registerCommandsLoop_commands b1 (initCommandRegState cs)
      rw [h1] at hl
      exact ⟨l, hl⟩
    refine ⟨?_, ?_, hadded⟩ <;> rw [registerCommands, hloop]
  · have hloop : registerTasksLoop (tb1 ++ tbad :: trest)
        (initTaskRegState ts) = (tst1, some te) := by
      rw [registerTasksLoop_append, h3]
      simp only [registerTasksLoop]
      cases hstep : registerTaskStep tst1 tbad with
      | mk stx ex =>
        have hex : ex = some te := by rw [hstep] at h4; exact h4
        have hfst : stx = tst1 := by
          have := registerTaskStep_error_fst tst1 tbad te h4
          rw [hstep] at this
          exact this
        subst hex hfst
        simp
    have hadded : ∃ tadded, tst1.tasks = ts ++ tadded := by
      obtain ⟨l, hl⟩ := registerTasksLoop_tasks tb1 (initTaskRegState ts)
      rw [h3] at hl
      exact ⟨l, hl⟩
    refine ⟨?_, ?_, hadded⟩ <;> rw [registerTasks, hloop]

/-- C2 witness: the amended statement at the concrete batches
`[valid "a", non-string]` (commands) and `["x", duplicate "x"]` (tasks). -/
theorem c2_amended_witness :
    ((registerCommands [] ([c2rawA] ++ c2rawBad :: [])).outcome =
        .error "Command must be a string" ∧
      (registerCommands [] ([c2rawA] ++ c2rawBad :: [])).commands =
        c2st1.commands ∧
      ∃ added, c2st1.commands = [] ++ added) ∧
      ((registerTasks [] ([c2task] ++ c2task :: [])).outcome =
          .error "Duplicate task" ∧
        (registerTasks [] ([c2task] ++ c2task :: [])).tasks = c2tst1.tasks ∧
        ∃ tadded, c2tst1.tasks = [] ++ tadded) :=
  c2_amended [] [c2rawA] c2rawBad [] c2st1 "Command must be a string"
    (by decide) rfl [] [c2task] c2task [] c2tst1 "Duplicate task" rfl rfl

theorem checkTasks_view_eq (s : Settings) (taskList : List Task) (m : Message)
    (excl : Bool) :
    checkTasksView (checkTasks s taskList m excl) =
      (loopView (checkTasksLoop s m excl taskList false ⟨[], []⟩)).map
        (fun pr => (pr.1.length != 0, pr.1, pr.2, pr.1)) := by
  unfold checkTasks checkTasksView loopView
  cases h : checkTasksLoop s m excl taskList false ⟨[], []⟩ with
  | error e => rfl
  | ok ctx => simp [Except.map, taskNames]

theorem checkTasksLoop_congr (s : Settings) (m : Message) (excl : Bool)
    (tasks : List Task) :
    ∀ (ls : Bool) (ctx1 ctx2 : TaskContext),
      taskNames ctx1.matching = taskNames ctx2.matching →
      taskNames ctx1.notMatching = taskNames ctx2.notMatching →
      loopView (checkTasksLoop s m excl tasks ls ctx1) =
        loopView (checkTasksLoop s m excl tasks ls ctx2) := by
  induction tasks with
  | nil =>
    intro ls ctx1 ctx2 hm hn
    simp [checkTasksLoop, loopView, Except.map, hm, hn]
  | cons q rest ih =>
    intro ls ctx1 ctx2 hm hn
    have hm2 : List.map Task.name ctx1.matching =
        List.map Task.name ctx2.matching := hm
    have hn2 : List.map Task.name ctx1.notMatching =
        List.map Task.name ctx2.notMatching := hn
    simp only [checkTasksLoop]
    by_cases hq : taskTestResult q m = true
    · rw [if_pos hq, if_pos hq]
      cases hperm : checkTaskPermissions s q m with
      | error e => rfl
      | ok checks =>
        dsimp only
        by_cases hsel :
            (checks.passChecks && (!q.limited || (!ls && !excl))) = true
        · rw [if_pos hsel, if_pos hsel]
          exact ih q.limited _ _ (by simp [taskNames, hm2]) hn
        · rw [if_neg hsel, if_neg hsel]
          exact ih ls _ _ hm (by simp [taskNames, hn2])
    · rw [if_neg hq, if_neg hq]
      exact ih ls _ _ hm (by simp [taskNames, hn2])

theorem taskNames_append (a b : List Task) :
    taskNames (a ++ b) = taskNames a ++ taskNames b :=
  List.map_append _ _ _

theorem mem_taskNames_cons {n : String} {q : Task} {l : List Task} :
    n ∈ taskNames (q :: l) ↔ n = q.name ∨ n ∈ taskNames l :=
  List.mem_cons

theorem mem_taskNames_append {n : String} {a b : List Task} :
    n ∈ taskNames (a ++ b) ↔ n ∈ taskNames a ∨ n ∈ taskNames b := by
  rw [taskNames_append]
  exact List.mem_append

theorem checkTasksLoop_notMatching_extends (s : Settings) (m : Message)
    (excl : Bool) (tasks : List Task) :
    ∀ (ls : Bool) (ctx ctx2 : TaskContext),
      checkTasksLoop s m excl tasks ls ctx = .ok ctx2 →
      ∃ l, ctx2.notMatching = ctx.notMatching ++ l := by
  induction tasks with
  | nil =>
    intro ls ctx ctx2 h
    cases h
    exact ⟨[], by simp⟩
  | cons q rest ih =>
    intro ls ctx ctx2 h
    simp only [checkTasksLoop] at h
    by_cases hq : taskTestResult q m = true
    · rw [if_pos hq] at h
      cases hperm : checkTaskPermissions s q m with
      | error e => rw [hperm] at h; cases h
      | ok checks =>
        rw [hperm] at h
        dsimp only at h
        by_cases hsel :
            (checks.passChecks && (!q.limited || (!ls && !excl))) = true
        · rw [if_pos hsel] at h
          obtain ⟨l, hl⟩ := ih q.limited
            { matching := ctx.matching ++ [q], notMatching := ctx.notMatching }
            ctx2 h
          exact ⟨l, hl⟩
        · rw [if_neg hsel] at h
          obtain ⟨l, hl⟩ := ih ls
            { matching := ctx.matching, notMatching := ctx.notMatching ++ [q] }
            ctx2 h
          exact ⟨q :: l, by simpa using hl⟩
    · rw [if_neg hq] at h
      obtain ⟨l, hl⟩ := ih ls _ _ h
      exact ⟨q :: l, by simpa using hl⟩

theorem checkTasksLoop_matching_names (s : Settings) (m : Message)
    (excl : Bool) (tasks : List Task) :
    ∀ (ls : Bool) (ctx ctx2 : TaskContext),
      checkTasksLoop s m excl tasks ls ctx = .ok ctx2 →
      ∀ n, n ∈ taskNames ctx2.matching →
        n ∈ taskNames ctx.matching ∨ n ∈ taskNames tasks := by
  induction tasks with
  | nil =>
    intro ls ctx ctx2 h n hn
    cases h
    exact Or.inl hn
  | cons q rest ih =>
    intro ls ctx ctx2 h n hn
    simp only [checkTasksLoop] at h
    by_cases hq : taskTestResult q m = true
    · rw [if_pos hq] at h
      cases hperm : checkTaskPermissions s q m with
      | error e => rw [hperm] at h; cases h
      | ok checks =>
        rw [hperm] at h
        dsimp only at h
        by_cases hsel :
            (checks.passChecks && (!q.limited || (!ls && !excl))) = true
        · rw [if_pos hsel] at h
          rcases ih q.limited
              { matching := ctx.matching ++ [q], notMatching := ctx.notMatching }
              ctx2 h n hn with hin | hin
          · rcases mem_taskNames_append.mp hin with hin2 | hin2
            · exact Or.inl hin2
            · rcases mem_taskNames_cons.mp hin2 with h3 | h3
              · exact Or.inr (mem_taskNames_cons.mpr (Or.inl h3))
              · exact absurd h3 (List.not_mem_nil n)
          · exact Or.inr (mem_taskNames_cons.mpr (Or.inr hin))
        · rw [if_neg hsel] at h
          rcases ih ls
              { matching := ctx.matching, notMatching := ctx.notMatching ++ [q] }
              ctx2 h n hn with hin | hin
          · exact Or.inl hin
          · exact Or.inr (mem_taskNames_cons.mpr (Or.inr hin))
    · rw [if_neg hq] at h
      rcases ih ls
          { matching := ctx.matching, notMatching := ctx.notMatching ++ [q] }
          ctx2 h n hn with hin | hin
      · exact Or.inl hin
      · exact Or.inr (mem_taskNames_cons.mpr (Or.inr hin))

/-- C1 evaluation at the failing input: with tasks `a` (limited), `b` (not
limited), `c` (limited), all of whose tests and checks pass on a plain DM,
`checkTasks` places both limited tasks in `matching` and runs both — the
assignment `limitedSelected = taskObj.limited` resets the flag to `false`
when the non-limited `b` matches, so `c` is selected even though `a` already
was.  The claim (and the code own documentation of `limited`) requires `c`
to land in `notMatching`. -/
theorem c1_limited_reset_eval :
    c1taskA.limited = true ∧ c1taskC.limited = true ∧
      checkTasksView
          (checkTasks defaultSettings [c1taskA, c1taskB, c1taskC] exMsgDM
            false) =
        .ok (true, ["a", "b", "c"], [], ["a", "b", "c"]) :=
  ⟨rfl, rfl, rfl⟩

theorem c7_loop_aux (s : Settings) (m : Message) (excl : Bool)
    (post : List Task) (t : Task) (herr : t.test m = .err) :
    ∀ (pre : List Task) (ls : Bool) (ctx : TaskContext),
      loopView (checkTasksLoop s m excl (pre ++ t :: post) ls ctx) =
        loopView (checkTasksLoop s m excl (pre ++ falseTask t :: post) ls ctx) := by
  have h1 : taskTestResult t m = false := by simp [taskTestResult, herr]
  have h2 : taskTestResult (falseTask t) m = false := by
    simp [taskTestResult, falseTask]
  intro pre
  induction pre with
  | nil =>
    intro ls ctx
    simp only [List.nil_append, checkTasksLoop, h1, h2, Bool.false_eq_true,
      if_false]
    exact checkTasksLoop_congr s m excl post ls _ _ rfl
      (by simp [taskNames, falseTask])
  | cons q rest ih =>
    intro ls ctx
    simp only [List.cons_append, checkTasksLoop]
    by_cases hq : taskTestResult q m = true
    · rw [if_pos hq, if_pos hq]
      cases hperm : checkTaskPermissions s q m with
      | error e => rfl
      | ok checks =>
        dsimp only
        by_cases hsel :
            (checks.passChecks && (!q.limited || (!ls && !excl))) = true
        · rw [if_pos hsel, if_pos hsel]
          exact ih q.limited _
        · rw [if_neg hsel, if_neg hsel]
          exact ih ls _
    · rw [if_neg hq, if_neg hq]
      exact ih ls _

theorem c7_loop_membership (s : Settings) (m : Message) (excl : Bool)
    (post : List Task) (t : Task) (herr : t.test m = .err) :
    ∀ (pre : List Task) (ls : Bool) (ctx ctx2 : TaskContext),
      checkTasksLoop s m excl (pre ++ t :: post) ls ctx = .ok ctx2 →
      t.name ∈ taskNames ctx2.notMatching ∧
        (t.name ∉ taskNames pre → t.name ∉ taskNames post →
          t.name ∉ taskNames ctx.matching → t.name ∉ taskNames ctx2.matching) := by
  have h1 : taskTestResult t m = false := by simp [taskTestResult, herr]
  intro pre
  induction pre with
  | nil =>
    intro ls ctx ctx2 h
    simp only [List.nil_append, checkTasksLoop, h1, Bool.false_eq_true,
      if_false] at h
    constructor
    · obtain ⟨l, hl⟩ := checkTasksLoop_notMatching_extends s m excl post ls _ _ h
      rw [hl]
      simp [taskNames]
    · intro _ hpost hctx hmem
      rcases checkTasksLoop_matching_names s m excl post ls _ _ h t.name hmem
        with hin | hin
      · exact hctx hin
      · exact hpost hin
  | cons q rest ih =>
    intro ls ctx ctx2 h
    simp only [List.cons_append, checkTasksLoop] at h
    have hqname : ∀ (hpre : t.name ∉ taskNames (q :: rest)),
        q.name ≠ t.name ∧ t.name ∉ taskNames rest := by
      intro hpre
      simp only [taskNames, List.map_cons, List.mem_cons] at hpre
      push_neg at hpre
      exact ⟨fun he => hpre.1 he.symm, hpre.2⟩
    by_cases hq : taskTestResult q m = true
    · rw [if_pos hq] at h
      cases hperm : checkTaskPermissions s q m with
      | error e => rw [hperm] at h; cases h
      | ok checks =>
        rw [hperm] at h
        dsimp only at h
        by_cases hsel :
            (checks.passChecks && (!q.limited || (!ls && !excl))) = true
        · rw [if_pos hsel] at h
          have res := ih q.limited
            { matching := ctx.matching ++ [q], notMatching := ctx.notMatching }
            ctx2 h
          refine ⟨res.1, fun hpre hpost hctx => ?_⟩
          obtain ⟨hq1, hq2⟩ := hqname hpre
          refine res.2 hq2 hpost ?_
          intro hmem2
          rcases mem_taskNames_append.mp hmem2 with h3 | h3
          · exact hctx h3
          · rcases mem_taskNames_cons.mp h3 with h4 | h4
            · exact hq1 h4.symm
            · exact absurd h4 (List.not_mem_nil t.name)
        · rw [if_neg hsel] at h
          have res := ih ls _ _ h
          refine ⟨res.1, fun hpre hpost hctx => ?_⟩
          obtain ⟨hq1, hq2⟩ := hqname hpre
          exact res.2 hq2 hpost hctx
    · rw [if_neg hq] at h
      have res := ih ls _ _ h
      refine ⟨res.1, fun hpre hpost hctx => ?_⟩
      obtain ⟨hq1, hq2⟩ := hqname hpre
      exact res.2 hq2 hpost hctx

/-- C7: a task whose test predicate raises is treated exactly like one whose
test returns `false`: the observable outcome of `checkTasks` (the match flag
and the names in `matching`, `notMatching` and the run sequence) is
unchanged by replacing the throwing test with a constantly-false one, the
error never surfaces, the task lands in `notMatching`, and (when no other
task shares its name) its run action is not invoked. -/
theorem checkTasks_test_error_as_false (s : Settings) (m : Message)
    (excl : Bool) (pre post : List Task) (t : Task)
    (herr : t.test m = TestOutcome.err) :
    checkTasksView (checkTasks s (pre ++ t :: post) m excl) =
        checkTasksView (checkTasks s (pre ++ falseTask t :: post) m excl) ∧
      ∀ o, checkTasks s (pre ++ t :: post) m excl = .ok o →
        t.name ∈ taskNames o.result.notMatching ∧
          (t.name ∉ taskNames (pre ++ post) → t.name ∉ taskNames o.runs) := by
  constructor
  · rw [checkTasks_view_eq, checkTasks_view_eq,
      c7_loop_aux s m excl post t herr pre false ⟨[], []⟩]
  · intro o ho
    unfold checkTasks at ho
    cases hloop : checkTasksLoop s m excl (pre ++ t :: post) false ⟨[], []⟩ with
    | error e => rw [hloop] at ho; cases ho
    | ok ctx2 =>
      rw [hloop] at ho
      injection ho with ho2
      subst ho2
      have res := c7_loop_membership s m excl post t herr pre false _ _ hloop
      refine ⟨res.1, fun hboth => ?_⟩
      have hsplit : t.name ∉ taskNames pre ∧ t.name ∉ taskNames post := by
        simp only [taskNames, List.map_append, List.mem_append] at hboth
        push_neg at hboth
        exact hboth
      exact res.2 hsplit.1 hsplit.2 (by simp [taskNames])

/-- C7 witness: the theorem evaluated at the single throwing task on a DM. -/
theorem checkTasks_test_error_as_false_witness :
    checkTasksView (checkTasks defaultSettings ([] ++ c7task :: []) exMsgDM
          false) =
        checkTasksView (checkTasks defaultSettings
          ([] ++ falseTask c7task :: []) exMsgDM false) ∧
      ∀ o, checkTasks defaultSettings ([] ++ c7task :: []) exMsgDM false =
          .ok o →
        c7task.name ∈ taskNames o.result.notMatching ∧
          (c7task.name ∉ taskNames ([] ++ ([] : List Task)) →
            c7task.name ∉ taskNames o.runs) :=
  checkTasks_test_error_as_false defaultSettings exMsgDM false [] [] c7task rfl

theorem checkTasksLoop_unresolved (s : Settings) (m : Message) (excl : Bool)
    (hg : m.guild.isSome = true) (hm : m.member = none) :
    ∀ (tasks : List Task) (ls : Bool) (ctx : TaskContext),
      (∃ t, t ∈ tasks ∧ t.test m = .ok true) →
      checkTasksLoop s m excl tasks ls ctx = .error "Should be unreachable" := by
  have hperm : ∀ q : Task,
      checkTaskPermissions s q m = .error "Should be unreachable" := by
    intro q
    unfold checkTaskPermissions
    rw [if_pos]
    simp [hg, hm]
  intro tasks
  induction tasks with
  | nil =>
    rintro ls ctx ⟨t, ht, -⟩
    cases ht
  | cons q rest ih =>
    rintro ls ctx ⟨t, htmem, httest⟩
    simp only [checkTasksLoop]
    by_cases hq : taskTestResult q m = true
    · rw [if_pos hq, hperm q]
    · rw [if_neg hq]
      rcases List.mem_cons.mp htmem with rfl | hrest
      · exact absurd (by simp [taskTestResult, httest]) hq
      · exact ih ls _ ⟨t, hrest, httest⟩

/-- C10: on a guild message whose member object is unresolved, as soon as any
task test predicate returns `true`, `checkTaskPermissions` raises the error
`Should be unreachable`; the error is not caught, so the whole `checkTasks`
call rejects and no run action is invoked — while `checkCommand` on the same
message either finds no match or resolves the member object before
evaluating permissions. -/
theorem checkTasks_unresolved_member_rejects (s : Settings)
    (taskList : List Task) (cmds : List Command) (m : Message) (excl : Bool)
    (hg : m.guild.isSome = true) (hm : m.member = none)
    (ht : ∃ t, t ∈ taskList ∧ t.test m = .ok true) :
    checkTasks s taskList m excl = .error "Should be unreachable" ∧
      ((checkCommand s cmds m).result = .noMatch ∨
        (checkCommand s cmds m).messageAfter.member =
          some m.fetchableMember) := by
  constructor
  · unfold checkTasks
    rw [checkTasksLoop_unresolved s m excl hg hm taskList false ⟨[], []⟩ ht]
  · have hres : resolveMember m = { m with member := some m.fetchableMember } := by
      unfold resolveMember
      rw [if_pos]
      simp [hg, hm]
    cases hf : findMatch (jsToLower m.content) (validPrefixes s m) cmds with
    | none =>
      rw [checkCommand_notFound s cmds m hf]
      exact Or.inl rfl
    | some pcv =>
      obtain ⟨p, c, v⟩ := pcv
      rw [checkCommand_found s cmds m p c v hf]
      exact Or.inr (by simp [hres])

/-- C10 witness: the theorem at one always-firing task and an empty command
registry on an unresolved guild message. -/
theorem checkTasks_unresolved_member_rejects_witness :
    checkTasks defaultSettings [c10task] c10msg false =
        .error "Should be unreachable" ∧
      ((checkCommand defaultSettings [] c10msg).result = .noMatch ∨
        (checkCommand defaultSettings [] c10msg).messageAfter.member =
          some c10msg.fetchableMember) :=
  checkTasks_unresolved_member_rejects defaultSettings [c10task] [] c10msg
    false rfl rfl ⟨c10task, List.mem_singleton.mpr rfl, rfl⟩

theorem mem_allVariations_of_mem {c : Command} {cmds : List Command}
    (h : c ∈ cmds) : c.command ∈ allVariations cmds := by
  induction cmds with
  | nil => cases h
  | cons d ds ih =>
    rcases List.mem_cons.mp h with rfl | h2
    · exact List.mem_append_left _ (List.mem_cons_self _ _)
    · exact List.mem_append_right _ (ih h2)

theorem isPrefixOf_true_iff : ∀ (l₁ l₂ : Str), l₁.isPrefixOf l₂ = true ↔ l₁ <+: l₂ := by
  intro l₁
  induction l₁ with
  | nil =>
    intro l₂
    simp [List.isPrefixOf, List.nil_prefix]
  | cons a as ih =>
    intro l₂
    cases l₂ with
    | nil =>
      constructor
      · intro h
        simp [List.isPrefixOf] at h
      · rintro ⟨t, ht⟩
        simp at ht
    | cons b bs =>
      constructor
      · intro h
        simp only [List.isPrefixOf, Bool.and_eq_true, beq_iff_eq] at h
        obtain ⟨rfl, h2⟩ := h
        obtain ⟨t, ht⟩ := (ih bs).mp h2
        exact ⟨t, by rw [List.cons_append, ht]⟩
      · rintro ⟨t, ht⟩
        rw [List.cons_append] at ht
        injection ht with h1 h2
        simp [List.isPrefixOf, h1, (ih bs).mpr ⟨t, h2⟩]

theorem prefixOf_trans_of_length_le {l₁ l₂ l₃ : Str} (h₁ : l₁ <+: l₃)
    (h₂ : l₂ <+: l₃) (hle : l₁.length ≤ l₂.length) : l₁ <+: l₂ := by
  induction l₃ generalizing l₁ l₂ with
  | nil =>
    obtain ⟨t, ht⟩ := h₁
    obtain ⟨h3, -⟩ := List.append_eq_nil.mp ht
    subst h3
    exact List.nil_prefix
  | cons a t3 ih =>
    cases l₁ with
    | nil => exact List.nil_prefix
    | cons b t1 =>
      cases l₂ with
      | nil => simp at hle
      | cons c2 t2 =>
        obtain ⟨u, hu⟩ := h₁
        rw [List.cons_append] at hu
        injection hu with hb hu2
        obtain ⟨w, hw⟩ := h₂
        rw [List.cons_append] at hw
        injection hw with hc hw2
        obtain ⟨z, hz⟩ := ih ⟨u, hu2⟩ ⟨w, hw2⟩ (by simpa using hle)
        exact ⟨z, by rw [List.cons_append, hz, hb, hc]⟩

/-- The whitespace-or-end boundary forces two variations that both match the
same content under the same prefix to be equal, provided neither contains a
whitespace character: the helper half assuming `v` is the shorter one. -/
theorem matchesVariation_eq_of_le (L p v w : Str) (hle : v.length ≤ w.length)
    (hv : matchesVariation L (p ++ v) = true)
    (hw : matchesVariation L (p ++ w) = true)
    (hwws : ∀ ch ∈ w, isJsWhitespace ch = false) : v = w := by
  rw [matchesVariation, Bool.and_eq_true] at hv hw
  obtain ⟨hv1, hv2⟩ := hv
  obtain ⟨hw1, hw2⟩ := hw
  have hpv : (p ++ v) <+: L := (isPrefixOf_true_iff _ _).mp hv1
  have hpw : (p ++ w) <+: L := (isPrefixOf_true_iff _ _).mp hw1
  have hvw : (p ++ v) <+: (p ++ w) :=
    prefixOf_trans_of_length_le hpv hpw (by simp [hle])
  obtain ⟨u, hu⟩ := hvw
  have huvw : v ++ u = w := by
    rw [List.append_assoc] at hu
    exact List.append_cancel_left hu
  cases u with
  | nil => simpa using huvw
  | cons c u2 =>
    exfalso
    obtain ⟨t2, ht2⟩ := hpw
    have hLsplit : L = (p ++ v) ++ (c :: (u2 ++ t2)) := by
      rw [← ht2, ← huvw]
      simp [List.append_assoc]
    rw [hLsplit, List.drop_left] at hv2
    have hcw : c ∈ w := by
      rw [← huvw]
      exact List.mem_append_right v (List.mem_cons_self c u2)
    have := hwws c hcw
    rw [boundaryOk] at hv2
    rw [this] at hv2
    cases hv2

theorem matchesVariation_inj (L p v w : Str)
    (hv : matchesVariation L (p ++ v) = true)
    (hw : matchesVariation L (p ++ w) = true)
    (hvws : ∀ ch ∈ v, isJsWhitespace ch = false)
    (hwws : ∀ ch ∈ w, isJsWhitespace ch = false) : v = w := by
  rcases Nat.le_total v.length w.length with hle | hle
  · exact matchesVariation_eq_of_le L p v w hle hv hw hwws
  · exact (matchesVariation_eq_of_le L p w v hle hw hv hvws).symm

theorem findInCommands_eq_of_invoked (L p : Str) (B : Command) :
    ∀ (cmds : List Command), B ∈ cmds →
      (allVariations cmds).Nodup →
      (∀ v ∈ allVariations cmds, ∀ ch ∈ v, isJsWhitespace ch = false) →
      matchesVariation L (p ++ B.command) = true →
      findMatchInCommands L p cmds = some (B, B.command) := by
  intro cmds
  induction cmds with
  | nil => intro h; cases h
  | cons c cs ih =>
    intro hB hnodup hws hinv
    rcases List.mem_cons.mp hB with rfl | hBtail
    · simp only [findMatchInCommands]
      rw [show (B.command :: B.aliases).find?
          (fun v => matchesVariation L (p ++ v)) = some B.command from by
        simp [List.find?_cons, hinv]]
    · have hdisj := List.disjoint_of_nodup_append hnodup
      have hfind : (c.command :: c.aliases).find?
          (fun v => matchesVariation L (p ++ v)) = none := by
        apply List.find?_eq_none.mpr
        intro v hv hcontra
        have hBv : B.command ∈ allVariations cs := mem_allVariations_of_mem hBtail
        have hvAll : v ∈ allVariations (c :: cs) := List.mem_append_left _ hv
        have hBAll : B.command ∈ allVariations (c :: cs) :=
          List.mem_append_right _ hBv
        have heq : v = B.command :=
          matchesVariation_inj L p v B.command hcontra hinv
            (hws v hvAll) (hws B.command hBAll)
        exact (hdisj hv) (heq ▸ hBv)
      simp only [findMatchInCommands, hfind]
      exact ih hBtail (List.Nodup.of_append_right hnodup)
        (fun v hv => hws v (List.mem_append_right _ hv)) hinv

theorem findInCommands_ne_shorter (L p : Str) (A B : Command)
    (hlen : A.command.length < B.command.length) :
    ∀ (cmds : List Command),
      cmds.Pairwise (fun x y => y.command.length ≤ x.command.length) →
      B ∈ cmds →
      matchesVariation L (p ++ B.command) = true →
      ∀ C v, findMatchInCommands L p cmds = some (C, v) → C ≠ A := by
  intro cmds
  induction cmds with
  | nil =>
    intro _ hB
    cases hB
  | cons c cs ih =>
    intro hsorted hB hinv C v hfound hCA
    rcases hfd : (c.command :: c.aliases).find?
        (fun w => matchesVariation L (p ++ w)) with - | w0
    · rw [findMatchInCommands, hfd] at hfound
      rcases List.mem_cons.mp hB with rfl | hBtail
      · have := List.find?_eq_none.mp hfd B.command (List.mem_cons_self _ _)
        exact this hinv
      · exact ih (List.Pairwise.of_cons hsorted) hBtail hinv C v hfound hCA
    · rw [findMatchInCommands, hfd] at hfound
      injection hfound with hpair
      have hcC : c = C := congrArg Prod.fst hpair
      rcases List.mem_cons.mp hB with rfl | hBtail
      · rw [hcC, hCA] at hlen
        exact Nat.lt_irrefl _ hlen
      · have hle := (List.pairwise_cons.mp hsorted).1 B hBtail
        rw [hcC, hCA] at hle
        omega

/-- C5 counterexample: with prefixes `["!b", "!"]`, command `B = "ban"` and
command `A = "b"` with alias `"an"` (registry sorted descending by primary
name length, all names/aliases distinct), the message `"!ban"` invokes `B`
(prefix `"!"` + `"ban"` at end of string), yet the scan matches `A` first —
at the earlier prefix `"!b"` via the alias `"an"` — so the ordering
invariant alone does not prevent `A` from capturing a message that invokes
`B`. -/
theorem c5_counterexample :
    c5cmdA.command ≠ c5cmdB.command ∧
      c5cmdA.command <+: c5cmdB.command ∧
      c5settings.globalPrefixes = ["!b".toList, "!".toList] ∧
      matchesVariation (jsToLower c5msg.content)
          ("!".toList ++ c5cmdB.command) = true ∧
      [c5cmdB, c5cmdA].Pairwise
        (fun x y => y.command.length ≤ x.command.length) ∧
      (checkCommand c5settings [c5cmdB, c5cmdA] c5msg).result.cmdOf =
        some c5cmdA :=
  ⟨by decide, ⟨"an".toList, rfl⟩, rfl, rfl, by decide, rfl⟩

/-- C5 (amended): for registered commands `A` and `B` with distinct primary
names where `A` primary name is a literal prefix of `B` primary name, when
exactly one prefix is in effect for the message and the registry is sorted
by descending primary-name length, a message that invokes `B` is never
matched to `A`; and when moreover all registered names and aliases are
pairwise distinct and none contains a whitespace character, the message is
matched exactly to `B` via `B` primary name.  (With several prefixes in
effect the guarantee fails — see the counterexample.) -/
theorem c5_amended (s : Settings) (cmds : List Command) (m : Message)
    (p : Str) (A B : Command)
    (hvp : validPrefixes s m = [p])
    (hsorted : cmds.Pairwise (fun x y => y.command.length ≤ x.command.length))
    (hA : A ∈ cmds) (hB : B ∈ cmds)
    (hne : A.command ≠ B.command)
    (hpref : A.command <+: B.command)
    (hinv : matchesVariation (jsToLower m.content) (p ++ B.command) = true) :
    (checkCommand s cmds m).result.cmdOf ≠ some A ∧
      ((allVariations cmds).Nodup →
        (∀ v ∈ allVariations cmds, ∀ ch ∈ v, isJsWhitespace ch = false) →
        (checkCommand s cmds m).result =
          .matched B.command (checkCommandPermissions s B (resolveMember m)) B) := by
  have hlen : A.command.length < B.command.length := by
    rcases Nat.lt_or_ge A.command.length B.command.length with h | h
    · exact h
    · exact absurd
        (hpref.eq_of_length (Nat.le_antisymm hpref.length_le h)) hne
  constructor
  · intro habs
    cases hfc : findMatchInCommands (jsToLower m.content) p cmds with
    | none =>
      have hfm : findMatch (jsToLower m.content) (validPrefixes s m) cmds =
          none := by
        rw [hvp]
        simp [findMatch, hfc]
      rw [checkCommand_notFound s cmds m hfm] at habs
      simp [CommandMatch.cmdOf] at habs
    | some cv =>
      obtain ⟨C, v⟩ := cv
      have hfm : findMatch (jsToLower m.content) (validPrefixes s m) cmds =
          some (p, C, v) := by
        rw [hvp]
        simp [findMatch, hfc]
      rw [checkCommand_found s cmds m p C v hfm] at habs
      have hCA : C = A := by
        simpa [CommandMatch.cmdOf] using habs
      exact findInCommands_ne_shorter (jsToLower m.content) p A B hlen cmds
        hsorted hB hinv C v hfc hCA
  · intro hnodup hws
    have hfc := findInCommands_eq_of_invoked (jsToLower m.content) p B cmds
      hB hnodup hws hinv
    have hfm : findMatch (jsToLower m.content) (validPrefixes s m) cmds =
        some (p, B, B.command) := by
      rw [hvp]
      simp [findMatch, hfc]
    rw [checkCommand_found s cmds m p B B.command hfm]

/-- C5 witness: with the single prefix `"!"`, commands `"banlist"` (= B) and
`"ban"` (= A) sorted descending, the message `"!banlist"` is matched to
`"banlist"`, never to `"ban"`. -/
theorem c5_amended_witness :
    (checkCommand c5wSettings [c5wCmdB, c5wCmdA] c5wMsg).result.cmdOf ≠
        some c5wCmdA ∧
      ((allVariations [c5wCmdB, c5wCmdA]).Nodup →
        (∀ v ∈ allVariations [c5wCmdB, c5wCmdA], ∀ ch ∈ v,
          isJsWhitespace ch = false) →
        (checkCommand c5wSettings [c5wCmdB, c5wCmdA] c5wMsg).result =
          .matched c5wCmdB.command
            (checkCommandPermissions c5wSettings c5wCmdB
              (resolveMember c5wMsg)) c5wCmdB) :=
  c5_amended c5wSettings [c5wCmdB, c5wCmdA] c5wMsg "!".toList c5wCmdA c5wCmdB
    rfl (by decide) (by decide) (by decide) (by decide)
    ⟨"list".toList, rfl⟩ (by decide)

end CommandHandler
